import Mathlib

/-!
# Wireless network example: attribution, statistics and reports

A shallow embedding of the experiment logic of
`Final Code/heavy_hitters/ns3_rede_wifi_code.cc`:

* the `double` arithmetic used by the statistics (`binary64`, round to nearest,
  ties to even, with gradual underflow and overflow to infinity);
* the `std::map<Ptr<Node>, uint32_t>` registry and the loop that fills it;
* the station placement loop, with `M_PI`, `std::cos`, `std::sin` and the random
  draws as parameters;
* the two report loops (console, with `break`; CSV, without).
-/

namespace WirelessNetworkExample

/-! ## binary64 values -/

/-- Power of two with an integer exponent. -/
def pow2 (e : ℤ) : ℚ :=
  if 0 ≤ e then ((2 ^ e.toNat : ℕ) : ℚ) else 1 / ((2 ^ (-e).toNat : ℕ) : ℚ)

/-- Nearest integer, ties to the even neighbour. -/
def roundHalfEven (q : ℚ) : ℤ :=
  let f := ⌊q⌋
  let r := q - f
  if r < 1 / 2 then f
  else if 1 / 2 < r then f + 1
  else if f % 2 = 0 then f else f + 1

/-- Number of halvings that bring `n` below `2`, at most `fuel` of them. -/
def log2Aux : ℕ → ℕ → ℕ
  | 0, _ => 0
  | fuel + 1, n => if 2 ≤ n then log2Aux fuel (n / 2) + 1 else 0

/-- Position of the leading bit of `n`: `2^(ilog2 n) ≤ n < 2^(ilog2 n + 1)` for `n ≠ 0`. -/
def ilog2 (n : ℕ) : ℕ := log2Aux n n

/-- Binary exponent of a non-zero rational: the `e` with `2^e ≤ |q| < 2^(e+1)`. -/
def binExp (q : ℚ) : ℤ :=
  let e0 : ℤ := (ilog2 q.num.natAbs : ℤ) - (ilog2 q.den : ℤ)
  if pow2 e0 ≤ |q| then e0 else e0 - 1

/-- Spacing of the binary64 grid around `q`: 53 significant bits, and the
subnormal spacing `2^-1074` below `2^-1022`. -/
def ulp (q : ℚ) : ℚ := pow2 (max (binExp q) (-1022) - 52)

/-- Rounding of a rational to the binary64 grid (exponent unbounded above). -/
def fl (q : ℚ) : ℚ := (roundHalfEven (q / ulp q) : ℚ) * ulp q

/-- A `double`: a finite value, an infinity, or NaN.  The sign bit of a zero and of a
NaN is not carried: `fin 0` stands for a zero of either sign.  The one zero the program
can divide by, `simulationTime - 1` at `simulationTime = 1`, is `+0`. -/
inductive Dbl where
  | fin (q : ℚ)
  | pinf
  | ninf
  | nan
deriving DecidableEq

namespace Dbl

/-- Result of an arithmetic operation whose exact value is `q`: rounded to
the grid, and replaced by an infinity when the rounded value leaves the range. -/
def round (q : ℚ) : Dbl :=
  if pow2 1024 ≤ fl q then pinf
  else if fl q ≤ -pow2 1024 then ninf
  else fin (fl q)

/-- Conversion of an unsigned integer to `double`. -/
def ofNat (n : ℕ) : Dbl := round n

/-- Subtraction `a - b`. -/
def sub : Dbl → Dbl → Dbl
  | fin a, fin b => round (a - b)
  | fin _, pinf => ninf
  | fin _, ninf => pinf
  | pinf, fin _ => pinf
  | pinf, ninf => pinf
  | ninf, fin _ => ninf
  | ninf, pinf => ninf
  | _, _ => nan

/-- Multiplication `a * b`. -/
def mul : Dbl → Dbl → Dbl
  | fin a, fin b => round (a * b)
  | fin a, pinf => if a = 0 then nan else if 0 < a then pinf else ninf
  | fin a, ninf => if a = 0 then nan else if 0 < a then ninf else pinf
  | pinf, fin b => if b = 0 then nan else if 0 < b then pinf else ninf
  | ninf, fin b => if b = 0 then nan else if 0 < b then ninf else pinf
  | pinf, pinf => pinf
  | pinf, ninf => ninf
  | ninf, pinf => ninf
  | ninf, ninf => pinf
  | _, _ => nan

/-- Division `a / b`. -/
def div : Dbl → Dbl → Dbl
  | fin a, fin b =>
    if b = 0 then (if a = 0 then nan else if 0 < a then pinf else ninf)
    else round (a / b)
  | fin _, pinf => fin 0
  | fin _, ninf => fin 0
  | pinf, fin b => if 0 ≤ b then pinf else ninf
  | ninf, fin b => if 0 ≤ b then ninf else pinf
  | _, _ => nan

end Dbl

/-- Decimal digits of `n`, left-padded with zeros to six places. -/
def pad6 (n : ℕ) : String :=
  let s := toString n
  String.mk (List.replicate (6 - s.length) '0') ++ s

/-- Text written for a `double` under `std::fixed << std::setprecision(6)`.  The text of a
zero (`0.000000` or `-0.000000`) and of a NaN (`nan` or `-nan`) depends on the sign bit,
which `Dbl` does not carry: no text is given for them. -/
def fixed6 : Dbl → Option String
  | Dbl.fin q =>
    if q = 0 then none
    else
      let n := (roundHalfEven (|q| * 1000000)).toNat
      some ((if q < 0 then "-" else "") ++ toString (n / 1000000) ++ "." ++
        pad6 (n % 1000000))
  | Dbl.pinf => some "inf"
  | Dbl.ninf => some "-inf"
  | Dbl.nan => none

/-! ## Flow records and statistics -/

/-- One entry of `monitor->GetFlowStats()` together with the five-tuple the
classifier returns for its flow id.  `delaySum` is the value of
`delaySum.GetSeconds()`, a finite `double`. -/
structure FlowRecord where
  flowId : ℕ
  sourceAddress : ℕ
  destinationAddress : ℕ
  txPackets : ℕ
  rxPackets : ℕ
  rxBytes : ℕ
  delaySum : ℚ

/-- Subtraction of two `uint32_t` values. -/
def u32sub (a b : ℕ) : ℕ := (a + 4294967296 - b) % 4294967296

/-- Line 214: `rxBytes * 8.0 / (simulationTime - 1) / 1024 / 1024`. -/
def consoleThroughput (f : FlowRecord) (simulationTime : ℚ) : Dbl :=
  Dbl.div (Dbl.div (Dbl.div (Dbl.mul (Dbl.ofNat f.rxBytes) (Dbl.fin 8))
    (Dbl.sub (Dbl.fin simulationTime) (Dbl.fin 1))) (Dbl.fin 1024)) (Dbl.fin 1024)

/-- Line 215: `rxPackets > 0 ? delaySum.GetSeconds() / rxPackets : INFINITY`. -/
def consoleDelay (f : FlowRecord) : Dbl :=
  if 0 < f.rxPackets then Dbl.div (Dbl.fin f.delaySum) (Dbl.ofNat f.rxPackets) else Dbl.pinf

/-- Line 216: `txPackets > 0 ? (txPackets - rxPackets) * 100.0 / txPackets : INFINITY`. -/
def consoleLoss (f : FlowRecord) : Dbl :=
  if 0 < f.txPackets then
    Dbl.div (Dbl.mul (Dbl.ofNat (u32sub f.txPackets f.rxPackets)) (Dbl.fin 100))
      (Dbl.ofNat f.txPackets)
  else Dbl.pinf

/-- Line 247: the throughput column of the CSV row. -/
def csvThroughput (f : FlowRecord) (simulationTime : ℚ) : Dbl :=
  Dbl.div (Dbl.div (Dbl.div (Dbl.mul (Dbl.ofNat f.rxBytes) (Dbl.fin 8))
    (Dbl.sub (Dbl.fin simulationTime) (Dbl.fin 1))) (Dbl.fin 1024)) (Dbl.fin 1024)

/-- Line 248: the delay column of the CSV row. -/
def csvDelay (f : FlowRecord) : Dbl :=
  if 0 < f.rxPackets then Dbl.div (Dbl.fin f.delaySum) (Dbl.ofNat f.rxPackets) else Dbl.pinf

/-- Line 249: the loss column of the CSV row. -/
def csvLoss (f : FlowRecord) : Dbl :=
  if 0 < f.txPackets then
    Dbl.div (Dbl.mul (Dbl.ofNat (u32sub f.txPackets f.rxPackets)) (Dbl.fin 100))
      (Dbl.ofNat f.txPackets)
  else Dbl.pinf

/-! ## Station placement -/

/-- The map `std::map<Ptr<Node>, uint32_t>`: its entries in iteration order,
that is by increasing key.  A key is the node pointer. -/
abbrev Registry := List (ℕ × ℕ)

/-- The assignment `m[k] = v`. -/
def mapAssign : Registry → ℕ → ℕ → Registry
  | [], k, v => [(k, v)]
  | (k', v') :: rest, k, v =>
    if k < k' then (k, v) :: (k', v') :: rest
    else if k = k' then (k, v) :: rest
    else (k', v') :: mapAssign rest k v

/-- The lookup `m.find(k)`. -/
def mapFind : Registry → ℕ → Option ℕ
  | [], _ => none
  | (k', v') :: rest, k => if k = k' then some v' else mapFind rest k

/-- Lines 118-121, from index `i` on:
`for (; i < nWifi; ++i) nodeIdMap[wifiStaNodes.Get(i)] = i + 1;`
over the nodes `wifiStaNodes.Get(i), ...`, with `i + 1` computed in `uint32_t`. -/
def assignStations : List ℕ → ℕ → Registry → Registry
  | [], _, m => m
  | node :: rest, i, m =>
    assignStations rest (i + 1) (mapAssign m node ((i + 1) % 4294967296))

/-- Lines 117-122: the station loop, then `nodeIdMap[wifiApNode.Get(0)] = nWifi + 1`,
where `nWifi` is the number of station nodes. -/
def buildNodeIdMap (staNodes : List ℕ) (apNode : ℕ) : Registry :=
  mapAssign (assignStations staNodes 0 []) apNode ((staNodes.length + 1) % 4294967296)

/-- The entries the station loop is meant to add, in creation order. -/
def stationEntries : List ℕ → ℕ → Registry
  | [], _ => []
  | node :: rest, i => (node, (i + 1) % 4294967296) :: stationEntries rest (i + 1)

/-! ## Reports -/

/-- One client block of the console report (lines 210-216). -/
structure ConsoleBlock where
  clientId : ℕ
  flowId : ℕ
  sourceAddress : ℕ
  destinationAddress : ℕ
  txPackets : ℕ
  rxPackets : ℕ
  throughput : Dbl
  delay : Dbl
  loss : Dbl
deriving DecidableEq

/-- One row of `ns3_results.csv` (lines 245-249). -/
structure CsvRow where
  clientId : ℕ
  txPackets : ℕ
  rxPackets : ℕ
  throughput : Dbl
  delay : Dbl
  loss : Dbl
deriving DecidableEq

/-- The block printed for flow `f` once `clientId` is known. -/
def consoleBlock (clientId : ℕ) (f : FlowRecord) (simulationTime : ℚ) : ConsoleBlock :=
  { clientId := clientId, flowId := f.flowId, sourceAddress := f.sourceAddress,
    destinationAddress := f.destinationAddress, txPackets := f.txPackets,
    rxPackets := f.rxPackets, throughput := consoleThroughput f simulationTime,
    delay := consoleDelay f, loss := consoleLoss f }

/-- The row written for flow `f` once `clientId` is known. -/
def csvRow (clientId : ℕ) (f : FlowRecord) (simulationTime : ℚ) : CsvRow :=
  { clientId := clientId, txPackets := f.txPackets, rxPackets := f.rxPackets,
    throughput := csvThroughput f simulationTime, delay := csvDelay f, loss := csvLoss f }

/-- Lines 202-219: the scan over `nodeIdMap`; it stops at the first node whose
address is the source address of the flow. `addrOf` gives the address
`GetObject<Ipv4>()->GetAddress(1, 0).GetLocal()` of a node. -/
def consoleScan (addrOf : ℕ → ℕ) (simulationTime : ℚ) (f : FlowRecord) :
    Registry → List ConsoleBlock
  | [] => []
  | (node, id) :: rest =>
    if addrOf node = f.sourceAddress then [consoleBlock id f simulationTime]
    else consoleScan addrOf simulationTime f rest

/-- Lines 237-252: the scan over `nodeIdMap` of the CSV loop; there is no
`break`, every node with the source address of the flow writes a row. -/
def csvScan (addrOf : ℕ → ℕ) (simulationTime : ℚ) (f : FlowRecord) :
    Registry → List CsvRow
  | [] => []
  | (node, id) :: rest =>
    if addrOf node = f.sourceAddress then
      csvRow id f simulationTime :: csvScan addrOf simulationTime f rest
    else csvScan addrOf simulationTime f rest

/-- Lines 194-220: what the console loop prints for one flow; `apAddress` is
`apInterface.GetAddress(0)`. -/
def consoleFlow (apAddress : ℕ) (addrOf : ℕ → ℕ) (simulationTime : ℚ) (m : Registry)
    (f : FlowRecord) : List ConsoleBlock :=
  if f.destinationAddress = apAddress then consoleScan addrOf simulationTime f m else []

/-- Lines 229-253: what the CSV loop writes for one flow. -/
def csvFlow (apAddress : ℕ) (addrOf : ℕ → ℕ) (simulationTime : ℚ) (m : Registry)
    (f : FlowRecord) : List CsvRow :=
  if f.destinationAddress = apAddress then csvScan addrOf simulationTime f m else []

/-- Lines 192-221: the console report over the flows in flow-id order. -/
def consoleReport (apAddress : ℕ) (addrOf : ℕ → ℕ) (simulationTime : ℚ) (m : Registry) :
    List FlowRecord → List ConsoleBlock
  | [] => []
  | f :: rest =>
    consoleFlow apAddress addrOf simulationTime m f ++
      consoleReport apAddress addrOf simulationTime m rest

/-- Lines 227-254: the rows of the CSV file over the flows in flow-id order. -/
def csvReport (apAddress : ℕ) (addrOf : ℕ → ℕ) (simulationTime : ℚ) (m : Registry) :
    List FlowRecord → List CsvRow
  | [] => []
  | f :: rest =>
    csvFlow apAddress addrOf simulationTime m f ++
      csvReport apAddress addrOf simulationTime m rest

/-- A value that a finite `double` can hold exactly. -/
def IsDouble (q : ℚ) : Prop := Dbl.round q = Dbl.fin q

instance (q : ℚ) : Decidable (IsDouble q) := by unfold IsDouble; infer_instance

/-- An address assignment used in the examples: node `h` has address `h + 100`. -/
def sampleAddr (h : ℕ) : ℕ := h + 100

/-- A flow from the node at address `110` to the AP at `105`: 100 of 100 packets. -/
def sampleFlow1 : FlowRecord := ⟨1, 110, 105, 100, 100, 104857, 3 / 2⟩

/-- A flow from the node at address `120` to the AP at `105`: 0 of 50 packets. -/
def sampleFlow2 : FlowRecord := ⟨2, 120, 105, 50, 0, 0, 0⟩

/-! ## Facts about the rounding -/

theorem pow2_eq_zpow (e : ℤ) : pow2 e = (2 : ℚ) ^ e := by
  unfold pow2
  split
  · rename_i h
    rw [Nat.cast_pow, Nat.cast_ofNat, ← zpow_natCast, Int.toNat_of_nonneg h]
  · rename_i h
    have h' : 0 ≤ -e := by omega
    rw [Nat.cast_pow, Nat.cast_ofNat, ← zpow_natCast, Int.toNat_of_nonneg h', zpow_neg]
    simp

theorem pow2_pos (e : ℤ) : 0 < pow2 e := by
  rw [pow2_eq_zpow]; positivity

theorem log2Aux_spec (fuel n : ℕ) (hf : n ≤ fuel) (hn : 0 < n) :
    2 ^ log2Aux fuel n ≤ n ∧ n < 2 ^ (log2Aux fuel n + 1) := by
  induction fuel generalizing n with
  | zero => omega
  | succ k ih =>
    unfold log2Aux
    split
    · rename_i h2
      have := ih (n / 2) (by omega) (by omega)
      constructor
      · rw [pow_succ]; omega
      · rw [pow_succ]; omega
    · simp; omega

theorem ilog2_spec (n : ℕ) (hn : 0 < n) : 2 ^ ilog2 n ≤ n ∧ n < 2 ^ (ilog2 n + 1) :=
  log2Aux_spec n n le_rfl hn

theorem roundHalfEven_err (q : ℚ) : |(roundHalfEven q : ℚ) - q| ≤ 1 / 2 := by
  have h1 := Int.floor_le q
  have h2 := Int.lt_floor_add_one q
  unfold roundHalfEven
  simp only
  split_ifs <;> rw [abs_le] <;> constructor <;> push_cast <;> linarith

theorem roundHalfEven_intCast (n : ℤ) : roundHalfEven (n : ℚ) = n := by
  unfold roundHalfEven
  simp

theorem abs_eq_natAbs_div_den (q : ℚ) : |q| = (q.num.natAbs : ℚ) / (q.den : ℚ) := by
  conv_lhs => rw [← Rat.num_div_den q]
  rw [abs_div, Nat.abs_cast, Nat.cast_natAbs, Int.cast_abs]

theorem binExp_le (q : ℚ) (hq : q ≠ 0) : pow2 (binExp q) ≤ |q| := by
  unfold binExp
  simp only
  split
  · assumption
  · have hn : 0 < q.num.natAbs := Int.natAbs_pos.mpr (Rat.num_ne_zero.mpr hq)
    have hd : 0 < q.den := q.den_pos
    obtain ⟨ha, -⟩ := ilog2_spec _ hn
    obtain ⟨-, hb⟩ := ilog2_spec _ hd
    rw [abs_eq_natAbs_div_den, pow2_eq_zpow]
    have ha' : (2 : ℚ) ^ (ilog2 q.num.natAbs) ≤ (q.num.natAbs : ℚ) := by exact_mod_cast ha
    have hb' : (q.den : ℚ) ≤ (2 : ℚ) ^ (ilog2 q.den + 1) := by exact_mod_cast hb.le
    have hdq : (0 : ℚ) < q.den := by exact_mod_cast hd
    rw [le_div_iff₀ hdq]
    have e : ((ilog2 q.num.natAbs : ℤ) - (ilog2 q.den : ℤ) - 1)
        = (ilog2 q.num.natAbs : ℤ) - ((ilog2 q.den + 1 : ℕ) : ℤ) := by push_cast; ring
    rw [e, zpow_sub₀ (by norm_num : (2 : ℚ) ≠ 0), zpow_natCast, zpow_natCast]
    have hp : (0 : ℚ) < 2 ^ (ilog2 q.den + 1) := by positivity
    rw [div_mul_eq_mul_div, div_le_iff₀ hp]
    have hq0 : (0 : ℚ) ≤ 2 ^ ilog2 q.num.natAbs := by positivity
    nlinarith

theorem ulp_pos (q : ℚ) : 0 < ulp q := pow2_pos _

theorem ulp_le (q : ℚ) (hq : q ≠ 0) : ulp q ≤ |q| / 2 ^ 52 + 1 / 2 ^ 1074 := by
  have hb := binExp_le q hq
  unfold ulp
  rw [pow2_eq_zpow] at hb ⊢
  have hq0 : 0 ≤ |q| := abs_nonneg q
  rcases le_total (binExp q) (-1022) with h | h
  · rw [max_eq_right h]
    have : (2 : ℚ) ^ ((-1022 : ℤ) - 52) = 1 / 2 ^ 1074 := by
      rw [show ((-1022 : ℤ) - 52) = -((1074 : ℕ) : ℤ) by norm_num, zpow_neg, zpow_natCast]
      simp
    rw [this]
    have : 0 ≤ |q| / 2 ^ 52 := by positivity
    linarith
  · rw [max_eq_left h, zpow_sub₀ (by norm_num : (2 : ℚ) ≠ 0)]
    have : (2 : ℚ) ^ (52 : ℤ) = 2 ^ 52 := by norm_cast
    rw [this]
    have h1 : (2 : ℚ) ^ binExp q / 2 ^ 52 ≤ |q| / 2 ^ 52 :=
      div_le_div_of_nonneg_right hb (by positivity)
    have : (0 : ℚ) ≤ 1 / 2 ^ 1074 := by positivity
    linarith

theorem fl_zero : fl 0 = 0 := by
  have h : roundHalfEven (0 : ℚ) = 0 := by simpa using roundHalfEven_intCast 0
  simp [fl, h]

theorem fl_sub_abs_le (q : ℚ) : |fl q - q| ≤ ulp q / 2 := by
  have hu := ulp_pos q
  have h := roundHalfEven_err (q / ulp q)
  have e : fl q - q = ((roundHalfEven (q / ulp q) : ℚ) - q / ulp q) * ulp q := by
    unfold fl
    field_simp
  rw [e, abs_mul, abs_of_pos hu]
  calc |(roundHalfEven (q / ulp q) : ℚ) - q / ulp q| * ulp q ≤ 1 / 2 * ulp q :=
        mul_le_mul_of_nonneg_right h hu.le
    _ = ulp q / 2 := by ring

theorem fl_err (q : ℚ) : |fl q - q| ≤ |q| / 2 ^ 53 + 1 / 2 ^ 1075 := by
  by_cases hq : q = 0
  · subst hq
    rw [fl_zero]
    simp
  · have h1 := fl_sub_abs_le q
    have h2 := ulp_le q hq
    have : (|q| / 2 ^ 52 + 1 / 2 ^ 1074) / 2 = |q| / 2 ^ 53 + 1 / 2 ^ 1075 := by ring
    linarith

theorem fl_intCast (n : ℤ) (h : |n| < 2 ^ 53) : fl (n : ℚ) = n := by
  by_cases hn : n = 0
  · subst hn
    simpa using fl_zero
  · have hq : (n : ℚ) ≠ 0 := by exact_mod_cast hn
    have hb := binExp_le (n : ℚ) hq
    rw [pow2_eq_zpow] at hb
    have hlt : |(n : ℚ)| < (2 : ℚ) ^ (53 : ℤ) := by
      have : ((|n| : ℤ) : ℚ) < ((2 ^ 53 : ℤ) : ℚ) := by exact_mod_cast h
      rw [Int.cast_abs] at this
      have e : (2 : ℚ) ^ (53 : ℤ) = ((2 ^ 53 : ℤ) : ℚ) := by norm_cast
      rw [e]; exact this
    have he : binExp (n : ℚ) < 53 := by
      by_contra hc
      push_neg at hc
      have := zpow_le_zpow_right₀ (by norm_num : (1 : ℚ) ≤ 2) hc
      linarith
    obtain ⟨k, hk⟩ : ∃ k : ℕ, max (binExp (n : ℚ)) (-1022) - 52 = -(k : ℤ) := by
      refine ⟨(52 - max (binExp (n : ℚ)) (-1022)).toNat, ?_⟩
      have : max (binExp (n : ℚ)) (-1022) ≤ 52 := by
        apply max_le <;> omega
      rw [Int.toNat_of_nonneg (by omega)]
      ring
    have hu : ulp (n : ℚ) = 1 / 2 ^ k := by
      unfold ulp
      rw [hk, pow2_eq_zpow, zpow_neg, zpow_natCast]
      simp
    have hdiv : (n : ℚ) / ulp (n : ℚ) = ((n * 2 ^ k : ℤ) : ℚ) := by
      rw [hu]
      push_cast
      field_simp
    unfold fl
    rw [hdiv, roundHalfEven_intCast, hu]
    push_cast
    field_simp

theorem fl_natCast (n : ℕ) (h : n < 9007199254740992) : fl (n : ℚ) = n := by
  have := fl_intCast (n : ℤ) (by rw [abs_of_nonneg (by positivity)]; norm_num; exact_mod_cast h)
  simpa using this

theorem pow2_1024 : pow2 1024 = 2 * 2 ^ 1023 := by
  rw [pow2_eq_zpow]
  have : (2 : ℚ) ^ (1024 : ℤ) = 2 ^ (1023 + 1) := zpow_natCast 2 (1023 + 1)
  rw [this, pow_succ]
  ring

theorem Dbl.round_eq_fin (q : ℚ) (h : |q| ≤ 2 ^ 1023) : Dbl.round q = Dbl.fin (fl q) := by
  have he := fl_err q
  have hX : (1 : ℚ) ≤ 2 ^ 1023 := one_le_pow₀ (by norm_num)
  have hT : (1 : ℚ) / 2 ^ 1075 ≤ 1 / 4 := by
    have : (2 : ℚ) ^ 2 ≤ 2 ^ 1075 := pow_le_pow_right₀ (by norm_num) (by norm_num)
    exact div_le_div_of_nonneg_left (by norm_num) (by norm_num) (by linarith)
  have hq0 : 0 ≤ |q| := abs_nonneg q
  have h53 : |q| / 2 ^ 53 ≤ |q| / 4 :=
    div_le_div_of_nonneg_left hq0 (by norm_num) (by norm_num)
  unfold Dbl.round
  rw [pow2_1024]
  generalize (2 : ℚ) ^ 1023 = X at h hX ⊢
  generalize (1 : ℚ) / 2 ^ 1075 = T at he hT
  generalize |q| / 2 ^ 53 = S at he h53
  have h' := abs_le.mp h
  rw [abs_le] at he
  rw [if_neg (by linarith [he.2, h'.2]), if_neg (by linarith [he.1, h'.1])]

theorem two_pow_le_max {n : ℕ} (hn : n ≤ 1023) : (2 : ℚ) ^ n ≤ 2 ^ 1023 :=
  pow_le_pow_right₀ (by norm_num) hn

/-- Values up to `2^64` in magnitude stay finite. -/
theorem Dbl.round_eq_fin_of_le (q : ℚ) (h : |q| ≤ 18446744073709551616) :
    Dbl.round q = Dbl.fin (fl q) := by
  apply Dbl.round_eq_fin
  have h2 : (2 : ℚ) ^ 64 ≤ 2 ^ 1023 := two_pow_le_max (by norm_num)
  have h3 : (2 : ℚ) ^ 64 = 18446744073709551616 := by norm_num
  rw [h3] at h2
  exact le_trans h h2

theorem Dbl.ofNat_eq (n : ℕ) (h : n < 9007199254740992) : Dbl.ofNat n = Dbl.fin n := by
  unfold Dbl.ofNat
  rw [Dbl.round_eq_fin_of_le, fl_natCast n h]
  rw [abs_of_nonneg (by positivity)]
  have : (n : ℚ) < 9007199254740992 := by exact_mod_cast h
  linarith

theorem Dbl.div_fin_fin (a b : ℚ) (hb : b ≠ 0) :
    Dbl.div (Dbl.fin a) (Dbl.fin b) = Dbl.round (a / b) := by
  show (if b = 0 then _ else Dbl.round _) = _
  rw [if_neg hb]

theorem u32sub_lt (a b : ℕ) : u32sub a b < 4294967296 := by
  unfold u32sub
  exact Nat.mod_lt _ (by norm_num)

theorem u32sub_of_le (a b : ℕ) (hb : b ≤ a) (ha : a < 4294967296) : u32sub a b = a - b := by
  unfold u32sub
  omega

theorem u32sub_of_lt (a b : ℕ) (hb : a < b) (hb' : b < 4294967296) :
    u32sub a b = 4294967296 + a - b := by
  unfold u32sub
  omega

/-- The loss expression on 32-bit counters: both conversions and the product
are exact, so the only rounding is that of the final quotient. -/
theorem lossExpr_eq (tx rx : ℕ) (h0 : 0 < tx) (htx : tx < 4294967296) :
    Dbl.div (Dbl.mul (Dbl.ofNat (u32sub tx rx)) (Dbl.fin 100)) (Dbl.ofNat tx)
      = Dbl.fin (fl ((u32sub tx rx : ℚ) * 100 / tx)) := by
  have hn := u32sub_lt tx rx
  have hnq : (u32sub tx rx : ℚ) < 4294967296 := by exact_mod_cast hn
  have hn0 : (0 : ℚ) ≤ (u32sub tx rx : ℚ) := by positivity
  have htq : (1 : ℚ) ≤ tx := by exact_mod_cast h0
  rw [Dbl.ofNat_eq _ (by omega), Dbl.ofNat_eq _ (by omega)]
  have hm : Dbl.mul (Dbl.fin (u32sub tx rx)) (Dbl.fin 100)
      = Dbl.fin ((u32sub tx rx : ℚ) * 100) := by
    show Dbl.round _ = _
    have e : (u32sub tx rx : ℚ) * 100 = ((u32sub tx rx * 100 : ℕ) : ℚ) := by push_cast; ring
    rw [Dbl.round_eq_fin_of_le, e, fl_natCast _ (by omega)]
    rw [abs_of_nonneg (by positivity)]
    linarith
  rw [hm]
  show (if (tx : ℚ) = 0 then _ else Dbl.round _) = _
  rw [if_neg (by positivity), Dbl.round_eq_fin_of_le]
  rw [abs_of_nonneg (by positivity), div_le_iff₀ (by positivity)]
  nlinarith

theorem loss_cast_of_le (tx rx : ℕ) (hle : rx ≤ tx) (htx : tx < 4294967296) :
    (u32sub tx rx : ℚ) = (tx : ℚ) - rx := by
  rw [u32sub_of_le tx rx hle htx, Nat.cast_sub hle]

/-- Rounding keeps the loss ratio of a flow with `0 < rx ≤ tx` inside `[0, 100]`
and does not merge an interior value with an end point. -/
theorem fl_lossRatio_range (tx rx : ℕ) (h0 : 0 < tx) (hle : rx ≤ tx) (htx : tx < 4294967296) :
    0 ≤ fl (((tx : ℚ) - rx) * 100 / tx) ∧ fl (((tx : ℚ) - rx) * 100 / tx) ≤ 100 ∧
    (fl (((tx : ℚ) - rx) * 100 / tx) = 0 ↔ rx = tx) ∧
    (fl (((tx : ℚ) - rx) * 100 / tx) = 100 ↔ rx = 0) := by
  have ha : (1 : ℚ) ≤ tx := by exact_mod_cast h0
  have ha' : (tx : ℚ) < 4294967296 := by exact_mod_cast htx
  have hapos : (0 : ℚ) < tx := by linarith
  rcases Nat.eq_or_lt_of_le hle with heq | hlt
  · subst heq
    have : ((rx : ℚ) - rx) * 100 / rx = 0 := by simp
    rw [this, fl_zero]
    refine ⟨le_rfl, by norm_num, by simp, ?_⟩
    constructor
    · intro h; norm_num at h
    · intro h; omega
  · rcases Nat.eq_zero_or_pos rx with hz | hpos
    · subst hz
      have : ((tx : ℚ) - (0 : ℕ)) * 100 / tx = ((100 : ℕ) : ℚ) := by
        push_cast; field_simp
      rw [this, fl_natCast 100 (by norm_num)]
      refine ⟨by norm_num, by norm_num, ?_, by simp⟩
      constructor
      · intro h; norm_num at h
      · intro h; omega
    · have hb : (1 : ℚ) ≤ rx := by exact_mod_cast hpos
      have hab : (rx : ℚ) + 1 ≤ tx := by exact_mod_cast hlt
      set x : ℚ := ((tx : ℚ) - rx) * 100 / tx with hx
      have hx1 : 100 / (tx : ℚ) ≤ x := by
        rw [hx]
        apply div_le_div_of_nonneg_right _ hapos.le
        linarith
      have hx2 : x ≤ 100 - 100 / (tx : ℚ) := by
        have : x = 100 - rx * 100 / tx := by rw [hx]; field_simp; ring
        rw [this]
        have : 100 / (tx : ℚ) ≤ rx * 100 / tx := by
          apply div_le_div_of_nonneg_right _ hapos.le
          linarith
        linarith
      have hd : (1 : ℚ) / 67108864 ≤ 100 / (tx : ℚ) := by
        rw [div_le_div_iff₀ (by norm_num) hapos]
        linarith
      have he := fl_err x
      have hxpos : 0 ≤ x := by linarith
      rw [abs_of_nonneg hxpos] at he
      have hT : (1 : ℚ) / 2 ^ 1075 ≤ 1 / 2 ^ 64 := by
        have : (2 : ℚ) ^ 64 ≤ 2 ^ 1075 := pow_le_pow_right₀ (by norm_num) (by norm_num)
        exact div_le_div_of_nonneg_left (by norm_num) (by positivity) this
      generalize (1 : ℚ) / 2 ^ 1075 = T at he hT
      rw [abs_le] at he
      have hS : x / 2 ^ 53 ≤ 100 / 2 ^ 53 :=
        div_le_div_of_nonneg_right (by linarith) (by positivity)
      have hS0 : 0 ≤ x / 2 ^ 53 := by positivity
      norm_num at hS hT
      have hlo : 0 < fl x := by linarith [he.1]
      have hhi : fl x < 100 := by linarith [he.2]
      refine ⟨hlo.le, hhi.le, ?_, ?_⟩
      · constructor
        · intro h; linarith
        · intro h; omega
      · constructor
        · intro h; linarith
        · intro h; omega

theorem IsDouble.abs_bound {q : ℚ} (h : IsDouble q) : |q| < 2 * 2 ^ 1023 := by
  unfold IsDouble Dbl.round at h
  rw [pow2_1024] at h
  split_ifs at h with h1 h2
  have e : fl q = q := Dbl.fin.inj h
  rw [e] at h1 h2
  exact abs_lt.mpr ⟨by linarith, by linarith⟩

/-! ## Facts about the placement -/

theorem mapFind_mapAssign_self (m : Registry) (k v : ℕ) :
    mapFind (mapAssign m k v) k = some v := by
  induction m with
  | nil => simp [mapAssign, mapFind]
  | cons e rest ih =>
    obtain ⟨k', v'⟩ := e
    unfold mapAssign
    split_ifs with h1 h2
    · simp [mapFind]
    · simp [mapFind]
    · simp [mapFind, h2, ih]

theorem mapAssign_perm (m : Registry) (k v : ℕ) (hk : k ∉ m.map Prod.fst) :
    (mapAssign m k v).Perm ((k, v) :: m) := by
  induction m with
  | nil => simp [mapAssign]
  | cons e rest ih =>
    obtain ⟨k', v'⟩ := e
    simp only [List.map_cons, List.mem_cons, not_or] at hk
    unfold mapAssign
    split_ifs with h1 h2
    · exact List.Perm.refl _
    · exact absurd h2 hk.1
    · exact ((ih hk.2).cons (k', v')).trans (List.Perm.swap _ _ _)

theorem mapFind_of_mem (m : Registry) (k v : ℕ) (hnd : (m.map Prod.fst).Nodup)
    (h : (k, v) ∈ m) : mapFind m k = some v := by
  induction m with
  | nil => simp at h
  | cons e rest ih =>
    obtain ⟨k', v'⟩ := e
    simp only [List.map_cons, List.nodup_cons] at hnd
    unfold mapFind
    rcases List.mem_cons.mp h with heq | hmem
    · obtain ⟨rfl, rfl⟩ := Prod.mk.inj heq
      simp
    · have hne : k ≠ k' := by
        rintro rfl
        exact hnd.1 (List.mem_map.mpr ⟨(k, v), hmem, rfl⟩)
      rw [if_neg hne]
      exact ih hnd.2 hmem

theorem stationEntries_keys (sta : List ℕ) (i : ℕ) :
    (stationEntries sta i).map Prod.fst = sta := by
  induction sta generalizing i with
  | nil => rfl
  | cons a t ih => simp [stationEntries, ih]

theorem mem_stationEntries (sta : List ℕ) (i h id : ℕ) :
    (h, id) ∈ stationEntries sta i ↔
      ∃ j, sta[j]? = some h ∧ id = (i + j + 1) % 4294967296 := by
  induction sta generalizing i with
  | nil => simp [stationEntries]
  | cons a t ih =>
    simp only [stationEntries, List.mem_cons, Prod.mk.injEq, ih]
    constructor
    · rintro (⟨rfl, rfl⟩ | ⟨j, hj, rfl⟩)
      · exact ⟨0, by simp, by simp⟩
      · exact ⟨j + 1, by simpa using hj, by ring_nf⟩
    · rintro ⟨j, hj, rfl⟩
      cases j with
      | zero =>
        left
        simp at hj
        exact ⟨hj.symm, by simp⟩
      | succ j =>
        right
        exact ⟨j, by simpa using hj, by ring_nf⟩

theorem assignStations_perm (sta : List ℕ) (i : ℕ) (m : Registry) (hnd : sta.Nodup)
    (hdis : ∀ h ∈ sta, h ∉ m.map Prod.fst) :
    (assignStations sta i m).Perm (m ++ stationEntries sta i) := by
  induction sta generalizing i m with
  | nil => simp [assignStations, stationEntries]
  | cons a t ih =>
    rw [List.nodup_cons] at hnd
    have ha : a ∉ m.map Prod.fst := hdis a (List.mem_cons_self _ _)
    have hp := mapAssign_perm m a ((i + 1) % 4294967296) ha
    have hdis' : ∀ h ∈ t, h ∉ (mapAssign m a ((i + 1) % 4294967296)).map Prod.fst := by
      intro h ht hmem
      have := (hp.map Prod.fst).mem_iff.mp hmem
      simp only [List.map_cons, List.mem_cons] at this
      rcases this with rfl | h'
      · exact hnd.1 ht
      · exact hdis h (List.mem_cons_of_mem _ ht) h'
    unfold assignStations stationEntries
    refine (ih (i + 1) _ hnd.2 hdis').trans ?_
    refine (hp.append_right _).trans ?_
    exact (List.perm_middle).symm

theorem buildNodeIdMap_perm (sta : List ℕ) (ap : ℕ) (hnd : (sta ++ [ap]).Nodup) :
    (buildNodeIdMap sta ap).Perm
      (stationEntries sta 0 ++ [(ap, (sta.length + 1) % 4294967296)]) := by
  have hs : sta.Nodup := (List.nodup_append.mp hnd).1
  have hap : ap ∉ sta := by
    intro h
    exact (List.nodup_append.mp hnd).2.2 h (List.mem_singleton_self _)
  have hp := assignStations_perm sta 0 [] hs (by simp)
  rw [List.nil_append] at hp
  have hk : ap ∉ (assignStations sta 0 []).map Prod.fst := by
    intro h
    have := (hp.map Prod.fst).mem_iff.mp h
    rw [stationEntries_keys] at this
    exact hap this
  unfold buildNodeIdMap
  refine (mapAssign_perm _ ap _ hk).trans ?_
  refine (hp.cons _).trans ?_
  exact (List.perm_append_singleton _ _).symm

theorem buildNodeIdMap_keys_perm (sta : List ℕ) (ap : ℕ) (hnd : (sta ++ [ap]).Nodup) :
    ((buildNodeIdMap sta ap).map Prod.fst).Perm (sta ++ [ap]) := by
  have := (buildNodeIdMap_perm sta ap hnd).map Prod.fst
  simpa [stationEntries_keys] using this

/-- The assignment `m[k] = v` keeps the keys in increasing order. -/
theorem mapAssign_sorted (m : Registry) (k v : ℕ)
    (h : (m.map Prod.fst).Pairwise (fun a b => a < b)) :
    ((mapAssign m k v).map Prod.fst).Pairwise (fun a b => a < b) := by
  induction m with
  | nil => simp [mapAssign]
  | cons e rest ih =>
    obtain ⟨k', v'⟩ := e
    simp only [List.map_cons, List.pairwise_cons] at h
    unfold mapAssign
    split_ifs with h1 h2
    · simp only [List.map_cons, List.pairwise_cons, List.mem_cons]
      refine ⟨?_, h.1, h.2⟩
      rintro a (rfl | ha)
      · exact h1
      · exact lt_trans h1 (h.1 a ha)
    · subst h2
      simp only [List.map_cons, List.pairwise_cons]
      exact h
    · simp only [List.map_cons, List.pairwise_cons]
      refine ⟨?_, ih h.2⟩
      intro a ha
      have hlt : k' < k := by omega
      by_cases hak : a = k
      · rw [hak]; exact hlt
      · apply h.1
        obtain ⟨e, he, rfl⟩ := List.mem_map.mp ha
        have hmem : ∀ (r : Registry) (e : ℕ × ℕ), e ∈ mapAssign r k v → e.1 ≠ k → e ∈ r := by
          intro r
          induction r with
          | nil =>
            intro e he hne
            simp only [mapAssign, List.mem_singleton] at he
            rw [he] at hne
            exact absurd rfl hne
          | cons x xs ihx =>
            obtain ⟨xk, xv⟩ := x
            intro e he hne
            unfold mapAssign at he
            split_ifs at he with g1 g2
            · rcases List.mem_cons.mp he with rfl | he'
              · exact absurd rfl hne
              · exact he'
            · rcases List.mem_cons.mp he with rfl | he'
              · exact absurd rfl hne
              · exact List.mem_cons_of_mem _ he'
            · rcases List.mem_cons.mp he with rfl | he'
              · exact List.mem_cons_self _ _
              · exact List.mem_cons_of_mem _ (ihx e he' hne)
        exact List.mem_map.mpr ⟨e, hmem rest e he hak, rfl⟩

/-- The registry built by the id-assignment loop is in increasing key order. -/
theorem buildNodeIdMap_sorted (sta : List ℕ) (ap : ℕ) :
    ((buildNodeIdMap sta ap).map Prod.fst).Pairwise (fun a b => a < b) := by
  have hloop : ∀ (l : List ℕ) (i : ℕ) (m : Registry),
      (m.map Prod.fst).Pairwise (fun a b => a < b) →
      ((assignStations l i m).map Prod.fst).Pairwise (fun a b => a < b) := by
    intro l
    induction l with
    | nil => intro i m hm; exact hm
    | cons a t ih =>
      intro i m hm
      unfold assignStations
      exact ih _ _ (mapAssign_sorted m a _ hm)
  unfold buildNodeIdMap
  exact mapAssign_sorted _ _ _ (hloop sta 0 [] (by simp))

theorem stationEntries_ids (sta : List ℕ) (i : ℕ) (h : i + sta.length < 4294967296) :
    (stationEntries sta i).map Prod.snd = List.range' (i + 1) sta.length := by
  induction sta generalizing i with
  | nil => rfl
  | cons a t ih =>
    rw [List.length_cons] at h
    simp only [stationEntries, List.map_cons, List.length_cons, List.range'_succ]
    rw [ih (i + 1) (by omega), Nat.mod_eq_of_lt (by omega)]

/-! ## Facts about the attribution scans -/

theorem scans_nil_of_no_match (addrOf : ℕ → ℕ) (st : ℚ) (f : FlowRecord) (m : Registry)
    (h : ∀ e ∈ m, addrOf e.1 ≠ f.sourceAddress) :
    csvScan addrOf st f m = [] ∧ consoleScan addrOf st f m = [] := by
  induction m with
  | nil => exact ⟨rfl, rfl⟩
  | cons e rest ih =>
    obtain ⟨node, id⟩ := e
    have h1 : addrOf node ≠ f.sourceAddress := h (node, id) (List.mem_cons_self _ _)
    have h2 := ih (fun e he => h e (List.mem_cons_of_mem _ he))
    unfold csvScan consoleScan
    rw [if_neg h1, if_neg h1]
    exact h2

theorem scans_singleton (addrOf : ℕ → ℕ) (st : ℚ) (f : FlowRecord) (m : Registry)
    (node id : ℕ) (hnd : (m.map Prod.fst).Nodup) (hmem : (node, id) ∈ m)
    (haddr : addrOf node = f.sourceAddress)
    (huniq : ∀ e ∈ m, addrOf e.1 = f.sourceAddress → e.1 = node) :
    csvScan addrOf st f m = [csvRow id f st] ∧
      consoleScan addrOf st f m = [consoleBlock id f st] := by
  induction m with
  | nil => simp at hmem
  | cons e rest ih =>
    obtain ⟨node', id'⟩ := e
    simp only [List.map_cons, List.nodup_cons] at hnd
    unfold csvScan consoleScan
    by_cases hhead : addrOf node' = f.sourceAddress
    · have hn : node' = node := huniq (node', id') (List.mem_cons_self _ _) hhead
      subst hn
      have hid : id' = id := by
        rcases List.mem_cons.mp hmem with heq | hin
        · exact (Prod.mk.inj heq).2.symm
        · exact absurd (List.mem_map.mpr ⟨(node', id), hin, rfl⟩) hnd.1
      subst hid
      have hrest : ∀ e ∈ rest, addrOf e.1 ≠ f.sourceAddress := by
        intro e he hae
        have := huniq e (List.mem_cons_of_mem _ he) hae
        exact hnd.1 (List.mem_map.mpr ⟨e, he, this⟩)
      rw [if_pos hhead, if_pos hhead, (scans_nil_of_no_match addrOf st f rest hrest).1]
      exact ⟨rfl, rfl⟩
    · rw [if_neg hhead, if_neg hhead]
      have hin : (node, id) ∈ rest := by
        rcases List.mem_cons.mp hmem with heq | hin
        · obtain ⟨rfl, rfl⟩ := Prod.mk.inj heq
          exact absurd haddr hhead
        · exact hin
      exact ih hnd.2 hin (fun e he => huniq e (List.mem_cons_of_mem _ he))

/-- With pairwise distinct addresses, a registered node with the source address of the
flow is the only one both scans find. -/
theorem scans_registered (addrOf : ℕ → ℕ) (st : ℚ) (f : FlowRecord) (sta : List ℕ)
    (ap node id : ℕ) (hnd : (sta ++ [ap]).Nodup)
    (hadr : ((sta ++ [ap]).map addrOf).Nodup)
    (hmem : (node, id) ∈ stationEntries sta 0 ++ [(ap, (sta.length + 1) % 4294967296)])
    (haddr : addrOf node = f.sourceAddress) :
    csvScan addrOf st f (buildNodeIdMap sta ap) = [csvRow id f st] ∧
      consoleScan addrOf st f (buildNodeIdMap sta ap) = [consoleBlock id f st] := by
  have hp := buildNodeIdMap_perm sta ap hnd
  have hk := buildNodeIdMap_keys_perm sta ap hnd
  have hnode : node ∈ sta ++ [ap] := by
    have : node ∈ (stationEntries sta 0 ++ [(ap, (sta.length + 1) % 4294967296)]).map
        Prod.fst := List.mem_map.mpr ⟨(node, id), hmem, rfl⟩
    simpa [stationEntries_keys] using this
  apply scans_singleton addrOf st f _ node id (hk.nodup_iff.mpr hnd) (hp.mem_iff.mpr hmem) haddr
  intro e he hae
  have he' : e.1 ∈ sta ++ [ap] := hk.mem_iff.mp (List.mem_map.mpr ⟨e, he, rfl⟩)
  exact List.inj_on_of_nodup_map hadr he' hnode (hae.trans haddr.symm)

theorem station_entry_mem (sta : List ℕ) (ap k node : ℕ) (hlen : sta.length < 4294967296)
    (hk : sta[k]? = some node) :
    (node, k + 1) ∈ stationEntries sta 0 ++ [(ap, (sta.length + 1) % 4294967296)] := by
  have hlt : k < sta.length := by
    rcases List.getElem?_eq_some.mp hk with ⟨h, -⟩
    exact h
  apply List.mem_append_left
  rw [mem_stationEntries]
  exact ⟨k, hk, by rw [Nat.zero_add, Nat.mod_eq_of_lt (by omega)]⟩

/-- C4 (as amended). With `rxBytes = 131072` and `simulationTime = 10` the throughput
`rxBytes * 8.0 / (simulationTime - 1) / 1024 / 1024` is the double nearest to `1/9`, and
both the console and the CSV render it with six decimals as `0.111111`. -/
theorem throughput_example_renders (flowId src dst tx rx : ℕ) (delaySum : ℚ) :
    fixed6 (consoleThroughput ⟨flowId, src, dst, tx, rx, 131072, delaySum⟩ 10) = some "0.111111" ∧
    fixed6 (csvThroughput ⟨flowId, src, dst, tx, rx, 131072, delaySum⟩ 10) = some "0.111111" ∧
    consoleThroughput ⟨flowId, src, dst, tx, rx, 131072, delaySum⟩ 10 = Dbl.fin (fl (1 / 9)) := by
  refine ⟨?_, ?_, ?_⟩
  · show fixed6 (Dbl.div (Dbl.div (Dbl.div (Dbl.mul (Dbl.ofNat 131072) (Dbl.fin 8))
      (Dbl.sub (Dbl.fin 10) (Dbl.fin 1))) (Dbl.fin 1024)) (Dbl.fin 1024)) = some "0.111111"
    decide!
  · show fixed6 (Dbl.div (Dbl.div (Dbl.div (Dbl.mul (Dbl.ofNat 131072) (Dbl.fin 8))
      (Dbl.sub (Dbl.fin 10) (Dbl.fin 1))) (Dbl.fin 1024)) (Dbl.fin 1024)) = some "0.111111"
    decide!
  · show Dbl.div (Dbl.div (Dbl.div (Dbl.mul (Dbl.ofNat 131072) (Dbl.fin 8))
      (Dbl.sub (Dbl.fin 10) (Dbl.fin 1))) (Dbl.fin 1024)) (Dbl.fin 1024) = Dbl.fin (fl (1 / 9))
    decide!

/-- C4, counterexample. For a flow with `rxBytes = 131072` and `simulationTime = 10` the
text written for the throughput is not `0.100000`. -/
theorem throughput_example_not_0_100000 :
    fixed6 (consoleThroughput ⟨1, 7, 9, 100, 100, 131072, 0⟩ 10) ≠ some "0.100000" ∧
    fixed6 (csvThroughput ⟨1, 7, 9, 100, 100, 131072, 0⟩ 10) ≠ some "0.100000" := by
  decide!

/-- C5 (as amended). For 32-bit packet counters with `txPackets > 0` the reported loss is
the double nearest to `d * 100 / txPackets`, where `d` is the 32-bit unsigned difference
`txPackets - rxPackets`: `d = txPackets - rxPackets` when `rxPackets ≤ txPackets`, so that
the reported value is the signed quantity `(txPackets - rxPackets) * 100 / txPackets` up to
one rounding, and `d = 2^32 + txPackets - rxPackets` when `rxPackets > txPackets`. With
`txPackets = 0` the reported loss is `+infinity`. -/
theorem loss_formula (f : FlowRecord) (htx : f.txPackets < 4294967296)
    (hrx : f.rxPackets < 4294967296) :
    (0 < f.txPackets →
      consoleLoss f = Dbl.fin (fl ((u32sub f.txPackets f.rxPackets : ℚ) * 100 / f.txPackets)) ∧
      csvLoss f = Dbl.fin (fl ((u32sub f.txPackets f.rxPackets : ℚ) * 100 / f.txPackets))) ∧
    (f.rxPackets ≤ f.txPackets →
      (u32sub f.txPackets f.rxPackets : ℚ) = (f.txPackets : ℚ) - f.rxPackets) ∧
    (f.txPackets < f.rxPackets →
      (u32sub f.txPackets f.rxPackets : ℚ) = 4294967296 + (f.txPackets : ℚ) - f.rxPackets) ∧
    (0 < f.txPackets → f.rxPackets ≤ f.txPackets →
      ∃ q : ℚ, consoleLoss f = Dbl.fin q ∧ csvLoss f = Dbl.fin q ∧
        |q - ((f.txPackets : ℚ) - f.rxPackets) * 100 / f.txPackets|
          ≤ |((f.txPackets : ℚ) - f.rxPackets) * 100 / f.txPackets| / 2 ^ 53 + 1 / 2 ^ 1075) ∧
    (f.txPackets = 0 → consoleLoss f = Dbl.pinf ∧ csvLoss f = Dbl.pinf) := by
  have hmain : 0 < f.txPackets →
      consoleLoss f = Dbl.fin (fl ((u32sub f.txPackets f.rxPackets : ℚ) * 100 / f.txPackets)) ∧
      csvLoss f
        = Dbl.fin (fl ((u32sub f.txPackets f.rxPackets : ℚ) * 100 / f.txPackets)) := by
    intro h0
    unfold consoleLoss csvLoss
    rw [if_pos h0, lossExpr_eq _ _ h0 htx]
    exact ⟨rfl, rfl⟩
  refine ⟨hmain, ?_, ?_, ?_, ?_⟩
  · intro hle
    exact loss_cast_of_le _ _ hle htx
  · intro hlt
    rw [u32sub_of_lt _ _ hlt hrx, Nat.cast_sub (by omega)]
    push_cast
    ring
  · intro h0 hle
    have h := hmain h0
    rw [loss_cast_of_le _ _ hle htx] at h
    exact ⟨_, h.1, h.2, fl_err _⟩
  · intro h0
    unfold consoleLoss csvLoss
    rw [if_neg (by omega)]
    exact ⟨rfl, rfl⟩

/-- C5, witness: `txPackets = 10, rxPackets = 7`. -/
theorem loss_formula_witness :
    consoleLoss ⟨1, 7, 9, 10, 7, 0, 0⟩ = Dbl.fin 30 ∧ csvLoss ⟨1, 7, 9, 10, 7, 0, 0⟩ = Dbl.fin 30 := by
  have h := (loss_formula ⟨1, 7, 9, 10, 7, 0, 0⟩ (by decide) (by decide)).1 (by decide)
  have e : fl (((u32sub 10 7 : ℕ) : ℚ) * 100 / ((10 : ℕ) : ℚ)) = 30 := by decide!
  rw [e] at h
  exact h

/-- C5, counterexample. With `txPackets = 1, rxPackets = 2` the reported loss is
`429496729500`, not the signed quantity `(1 - 2) * 100 / 1 = -100`; with
`txPackets = 3, rxPackets = 2` it is a double, not the rational `100 / 3`. -/
theorem loss_not_signed_quantity :
    consoleLoss ⟨1, 7, 9, 1, 2, 0, 0⟩ = Dbl.fin 429496729500 ∧
    consoleLoss ⟨1, 7, 9, 1, 2, 0, 0⟩ ≠ Dbl.fin (((1 : ℚ) - 2) * 100 / 1) ∧
    csvLoss ⟨1, 7, 9, 1, 2, 0, 0⟩ = Dbl.fin 429496729500 ∧
    consoleLoss ⟨1, 7, 9, 3, 2, 0, 0⟩ ≠ Dbl.fin (((3 : ℚ) - 2) * 100 / 3) := by
  decide!

/-- C6. For a flow with a 32-bit `rxPackets > 0` the reported delay is the `double` quotient
of `delaySum` by `rxPackets` (the conversion of `rxPackets` is exact and the divisor is not
zero), a finite value within one rounding of `delaySum / rxPackets` when `delaySum` is a
finite `double`; with `rxPackets = 0` it is `+infinity`, not zero and not the result of a
division by zero; the console and the CSV report the same value. -/
theorem delay_formula (f : FlowRecord) (hrx : f.rxPackets < 4294967296) :
    (0 < f.rxPackets →
      consoleDelay f = Dbl.round (f.delaySum / f.rxPackets) ∧ (f.rxPackets : ℚ) ≠ 0) ∧
    (0 < f.rxPackets → IsDouble f.delaySum →
      ∃ d : ℚ, consoleDelay f = Dbl.fin d ∧
        |d - f.delaySum / f.rxPackets| ≤ |f.delaySum / f.rxPackets| / 2 ^ 53 + 1 / 2 ^ 1075) ∧
    (f.rxPackets = 0 → consoleDelay f = Dbl.pinf ∧ consoleDelay f ≠ Dbl.fin 0) ∧
    csvDelay f = consoleDelay f := by
  have hmain : 0 < f.rxPackets →
      consoleDelay f = Dbl.round (f.delaySum / f.rxPackets) ∧ (f.rxPackets : ℚ) ≠ 0 := by
    intro h0
    have hne : (f.rxPackets : ℚ) ≠ 0 := by positivity
    refine ⟨?_, hne⟩
    unfold consoleDelay
    rw [if_pos h0, Dbl.ofNat_eq _ (by omega), Dbl.div_fin_fin _ _ hne]
  refine ⟨hmain, ?_, ?_, rfl⟩
  · intro h0 hd
    rw [(hmain h0).1]
    have hb := hd.abs_bound
    rcases Nat.eq_or_lt_of_le h0 with h1 | h2
    · have e : f.delaySum / (f.rxPackets : ℚ) = f.delaySum := by
        rw [← h1]
        simp
      rw [e]
      refine ⟨f.delaySum, hd, ?_⟩
      rw [sub_self, abs_zero]
      positivity
    · have hr2 : (2 : ℚ) ≤ f.rxPackets := by exact_mod_cast h2
      have hq : |f.delaySum / f.rxPackets| ≤ 2 ^ 1023 := by
        rw [abs_div, abs_of_pos (by linarith : (0 : ℚ) < f.rxPackets),
          div_le_iff₀ (by linarith)]
        generalize (2 : ℚ) ^ 1023 = X at hb ⊢
        have hX : 0 < X := by
          have := abs_nonneg f.delaySum
          linarith
        nlinarith
      exact ⟨_, Dbl.round_eq_fin _ hq, fl_err _⟩
  · intro h0
    unfold consoleDelay
    rw [if_neg (by omega)]
    exact ⟨rfl, by simp⟩

/-- C6, witness: `delaySum = 3/2` seconds over `rxPackets = 7`. -/
theorem delay_formula_witness :
    consoleDelay ⟨1, 7, 9, 10, 7, 0, 3 / 2⟩ = Dbl.round ((3 / 2 : ℚ) / (7 : ℕ)) ∧
    csvDelay ⟨1, 7, 9, 10, 7, 0, 3 / 2⟩ = consoleDelay ⟨1, 7, 9, 10, 7, 0, 3 / 2⟩ :=
  have h := delay_formula ⟨1, 7, 9, 10, 7, 0, 3 / 2⟩ (by decide)
  ⟨(h.1 (by decide)).1, h.2.2.2⟩

/-- C10. For 32-bit counters with `txPackets > 0` and `rxPackets ≤ txPackets` the unsigned
subtraction does not wrap, and the reported loss is a finite value in `[0, 100]` that is `0`
exactly when `rxPackets = txPackets` and `100` exactly when `rxPackets = 0`. -/
theorem loss_bounds (f : FlowRecord) (h0 : 0 < f.txPackets) (hle : f.rxPackets ≤ f.txPackets)
    (htx : f.txPackets < 4294967296) :
    u32sub f.txPackets f.rxPackets = f.txPackets - f.rxPackets ∧
    ∃ q : ℚ, consoleLoss f = Dbl.fin q ∧ csvLoss f = Dbl.fin q ∧ 0 ≤ q ∧ q ≤ 100 ∧
      (q = 0 ↔ f.rxPackets = f.txPackets) ∧ (q = 100 ↔ f.rxPackets = 0) := by
  refine ⟨u32sub_of_le _ _ hle htx, ?_⟩
  have hb := fl_lossRatio_range f.txPackets f.rxPackets h0 hle htx
  refine ⟨fl (((f.txPackets : ℚ) - f.rxPackets) * 100 / f.txPackets), ?_, ?_, hb⟩
  · unfold consoleLoss
    rw [if_pos h0, lossExpr_eq _ _ h0 htx, loss_cast_of_le _ _ hle htx]
  · unfold csvLoss
    rw [if_pos h0, lossExpr_eq _ _ h0 htx, loss_cast_of_le _ _ hle htx]

/-- C10, witness: `txPackets = 10, rxPackets = 7`. -/
theorem loss_bounds_witness :
    u32sub 10 7 = 10 - 7 ∧
    ∃ q : ℚ, consoleLoss ⟨1, 7, 9, 10, 7, 0, 0⟩ = Dbl.fin q ∧
      csvLoss ⟨1, 7, 9, 10, 7, 0, 0⟩ = Dbl.fin q ∧ 0 ≤ q ∧ q ≤ 100 ∧
      (q = 0 ↔ 7 = 10) ∧ (q = 100 ↔ 7 = 0) :=
  loss_bounds ⟨1, 7, 9, 10, 7, 0, 0⟩ (by decide) (by decide) (by decide)

/-! ## The registry and the attribution -/

/-- C3 (as amended). For `N` station nodes with `N + 1 < 2^32` and `N + 1` distinct node
handles, after the id-assignment loop the registry maps station `i` (in creation order) to
`i + 1` and the AP to `N + 1`; its ids are a rearrangement of `1, ..., N + 1` and its keys a
rearrangement of the handles, neither with a repetition. -/
theorem registry_ids (sta : List ℕ) (ap : ℕ) (hnd : (sta ++ [ap]).Nodup)
    (hlen : sta.length + 1 < 4294967296) :
    (∀ i node, sta[i]? = some node → mapFind (buildNodeIdMap sta ap) node = some (i + 1)) ∧
    mapFind (buildNodeIdMap sta ap) ap = some (sta.length + 1) ∧
    ((buildNodeIdMap sta ap).map Prod.snd).Perm (List.range' 1 (sta.length + 1)) ∧
    ((buildNodeIdMap sta ap).map Prod.fst).Perm (sta ++ [ap]) ∧
    ((buildNodeIdMap sta ap).map Prod.snd).Nodup ∧
    ((buildNodeIdMap sta ap).map Prod.fst).Nodup := by
  have hp := buildNodeIdMap_perm sta ap hnd
  have hk := buildNodeIdMap_keys_perm sta ap hnd
  have hknd : ((buildNodeIdMap sta ap).map Prod.fst).Nodup := hk.nodup_iff.mpr hnd
  have hap : (sta.length + 1) % 4294967296 = sta.length + 1 := Nat.mod_eq_of_lt hlen
  have hids : ((buildNodeIdMap sta ap).map Prod.snd).Perm (List.range' 1 (sta.length + 1)) := by
    have := hp.map Prod.snd
    rw [List.map_append, stationEntries_ids sta 0 (by omega), List.map_singleton, hap] at this
    rw [List.range'_concat, Nat.one_mul, Nat.add_comm 1 sta.length]
    exact this
  refine ⟨?_, ?_, hids, hk, hids.nodup_iff.mpr (List.nodup_range' _ _), hknd⟩
  · intro i node hi
    apply mapFind_of_mem _ _ _ hknd
    exact hp.mem_iff.mpr (station_entry_mem sta ap i node (by omega) hi)
  · unfold buildNodeIdMap
    rw [mapFind_mapAssign_self, hap]

/-- C3, witness: three stations created at addresses that are not in creation order. -/
theorem registry_ids_witness :
    (∀ i node, [30, 10, 20][i]? = some node →
      mapFind (buildNodeIdMap [30, 10, 20] 5) node = some (i + 1)) ∧
    mapFind (buildNodeIdMap [30, 10, 20] 5) 5 = some ([30, 10, 20].length + 1) ∧
    ((buildNodeIdMap [30, 10, 20] 5).map Prod.snd).Perm
      (List.range' 1 ([30, 10, 20].length + 1)) ∧
    ((buildNodeIdMap [30, 10, 20] 5).map Prod.fst).Perm ([30, 10, 20] ++ [5]) ∧
    ((buildNodeIdMap [30, 10, 20] 5).map Prod.snd).Nodup ∧
    ((buildNodeIdMap [30, 10, 20] 5).map Prod.fst).Nodup :=
  registry_ids [30, 10, 20] 5 (by decide) (by decide)

/-- C3, counterexample. With `nWifi = 4294967295` stations and distinct handles the
sum `nWifi + 1` wraps in `uint32_t`: the AP is registered with id `0`, not `4294967296`. -/
theorem registry_ap_id_wraps :
    (List.range 4294967295 ++ [4294967295]).Nodup ∧
    (List.range 4294967295).length + 1 = 4294967296 ∧
    mapFind (buildNodeIdMap (List.range 4294967295) 4294967295) 4294967295 = some 0 := by
  refine ⟨?_, ?_, ?_⟩
  · rw [List.nodup_append]
    refine ⟨List.nodup_range _, List.nodup_singleton _, ?_⟩
    intro a ha hb
    rw [List.mem_range] at ha
    rw [List.mem_singleton] at hb
    omega
  · rw [List.length_range]
  · unfold buildNodeIdMap
    rw [mapFind_mapAssign_self, List.length_range]

/-- C1. For a registry built by the id-assignment loop over `N < 2^32` distinct station
handles and the AP handle, with pairwise distinct addresses, a flow to the AP whose source
address is that of station `k` is printed and written exactly once, with client id `k + 1`,
the id registered for that station. -/
theorem station_flow_attribution (sta : List ℕ) (ap : ℕ) (addrOf : ℕ → ℕ) (st : ℚ)
    (f : FlowRecord) (k node : ℕ) (hlen : sta.length < 4294967296)
    (hnd : (sta ++ [ap]).Nodup) (hadr : ((sta ++ [ap]).map addrOf).Nodup)
    (hk : sta[k]? = some node) (hdst : f.destinationAddress = addrOf ap)
    (hsrc : f.sourceAddress = addrOf node) :
    consoleFlow (addrOf ap) addrOf st (buildNodeIdMap sta ap) f = [consoleBlock (k + 1) f st] ∧
    csvFlow (addrOf ap) addrOf st (buildNodeIdMap sta ap) f = [csvRow (k + 1) f st] ∧
    mapFind (buildNodeIdMap sta ap) node = some (k + 1) := by
  have hmem := station_entry_mem sta ap k node hlen hk
  have hs := scans_registered addrOf st f sta ap node (k + 1) hnd hadr hmem hsrc.symm
  unfold consoleFlow csvFlow
  rw [if_pos hdst, if_pos hdst]
  refine ⟨hs.2, hs.1, ?_⟩
  apply mapFind_of_mem _ _ _ ((buildNodeIdMap_keys_perm sta ap hnd).nodup_iff.mpr hnd)
  exact (buildNodeIdMap_perm sta ap hnd).mem_iff.mpr hmem

/-- C1, witness: three stations, a flow from the address of station 2 to the AP. -/
theorem station_flow_attribution_witness :
    consoleFlow (sampleAddr 5) sampleAddr 10 (buildNodeIdMap [30, 10, 20] 5)
        ⟨1, 120, 105, 10, 7, 131072, 3 / 2⟩
      = [consoleBlock (2 + 1) ⟨1, 120, 105, 10, 7, 131072, 3 / 2⟩ 10] ∧
    csvFlow (sampleAddr 5) sampleAddr 10 (buildNodeIdMap [30, 10, 20] 5)
        ⟨1, 120, 105, 10, 7, 131072, 3 / 2⟩
      = [csvRow (2 + 1) ⟨1, 120, 105, 10, 7, 131072, 3 / 2⟩ 10] ∧
    mapFind (buildNodeIdMap [30, 10, 20] 5) 20 = some (2 + 1) :=
  station_flow_attribution [30, 10, 20] 5 sampleAddr 10 ⟨1, 120, 105, 10, 7, 131072, 3 / 2⟩
    2 20 (by decide) (by decide) (by decide) (by decide) (by decide) (by decide)

/-- C2 (as amended). With pairwise distinct addresses, a flow to the AP is attributed to at
most one entity: to one Station, with a client id in `1..N`, when its source address is the
address of a station; to the AP itself, with the id `N + 1` computed in `uint32_t`, when its
source address is the address of the AP; and to no entity, leaving no block and no row, when
its source address is not the address of a registered node. -/
theorem flow_attribution_cases (sta : List ℕ) (ap : ℕ) (addrOf : ℕ → ℕ) (st : ℚ)
    (f : FlowRecord) (hlen : sta.length < 4294967296)
    (hnd : (sta ++ [ap]).Nodup) (hadr : ((sta ++ [ap]).map addrOf).Nodup)
    (hdst : f.destinationAddress = addrOf ap) :
    (∀ k node, sta[k]? = some node → f.sourceAddress = addrOf node →
      csvFlow (addrOf ap) addrOf st (buildNodeIdMap sta ap) f = [csvRow (k + 1) f st] ∧
      consoleFlow (addrOf ap) addrOf st (buildNodeIdMap sta ap) f
        = [consoleBlock (k + 1) f st] ∧
      1 ≤ k + 1 ∧ k + 1 ≤ sta.length) ∧
    (f.sourceAddress = addrOf ap →
      csvFlow (addrOf ap) addrOf st (buildNodeIdMap sta ap) f
        = [csvRow ((sta.length + 1) % 4294967296) f st] ∧
      consoleFlow (addrOf ap) addrOf st (buildNodeIdMap sta ap) f
        = [consoleBlock ((sta.length + 1) % 4294967296) f st]) ∧
    (f.sourceAddress ∉ (sta ++ [ap]).map addrOf →
      csvFlow (addrOf ap) addrOf st (buildNodeIdMap sta ap) f = [] ∧
      consoleFlow (addrOf ap) addrOf st (buildNodeIdMap sta ap) f = []) ∧
    (csvFlow (addrOf ap) addrOf st (buildNodeIdMap sta ap) f).length ≤ 1 ∧
    (consoleFlow (addrOf ap) addrOf st (buildNodeIdMap sta ap) f).length ≤ 1 := by
  have hsta : ∀ k node, sta[k]? = some node → f.sourceAddress = addrOf node →
      csvFlow (addrOf ap) addrOf st (buildNodeIdMap sta ap) f = [csvRow (k + 1) f st] ∧
      consoleFlow (addrOf ap) addrOf st (buildNodeIdMap sta ap) f
        = [consoleBlock (k + 1) f st] ∧
      1 ≤ k + 1 ∧ k + 1 ≤ sta.length := by
    intro k node hk hsrc
    have hmem := station_entry_mem sta ap k node hlen hk
    have hs := scans_registered addrOf st f sta ap node (k + 1) hnd hadr hmem hsrc.symm
    have hlt : k < sta.length := by
      rcases List.getElem?_eq_some.mp hk with ⟨h, -⟩
      exact h
    unfold consoleFlow csvFlow
    rw [if_pos hdst, if_pos hdst]
    exact ⟨hs.1, hs.2, by omega, by omega⟩
  have hapc : f.sourceAddress = addrOf ap →
      csvFlow (addrOf ap) addrOf st (buildNodeIdMap sta ap) f
        = [csvRow ((sta.length + 1) % 4294967296) f st] ∧
      consoleFlow (addrOf ap) addrOf st (buildNodeIdMap sta ap) f
        = [consoleBlock ((sta.length + 1) % 4294967296) f st] := by
    intro hsrc
    have hmem : (ap, (sta.length + 1) % 4294967296) ∈
        stationEntries sta 0 ++ [(ap, (sta.length + 1) % 4294967296)] :=
      List.mem_append_right _ (List.mem_singleton_self _)
    have hs := scans_registered addrOf st f sta ap ap _ hnd hadr hmem hsrc.symm
    unfold consoleFlow csvFlow
    rw [if_pos hdst, if_pos hdst]
    exact hs
  have hnone : f.sourceAddress ∉ (sta ++ [ap]).map addrOf →
      csvFlow (addrOf ap) addrOf st (buildNodeIdMap sta ap) f = [] ∧
      consoleFlow (addrOf ap) addrOf st (buildNodeIdMap sta ap) f = [] := by
    intro hsrc
    unfold consoleFlow csvFlow
    rw [if_pos hdst, if_pos hdst]
    apply scans_nil_of_no_match
    intro e he hae
    apply hsrc
    have : e.1 ∈ sta ++ [ap] :=
      (buildNodeIdMap_keys_perm sta ap hnd).mem_iff.mp (List.mem_map.mpr ⟨e, he, rfl⟩)
    exact List.mem_map.mpr ⟨e.1, this, hae⟩
  refine ⟨hsta, hapc, hnone, ?_⟩
  by_cases hin : f.sourceAddress ∈ (sta ++ [ap]).map addrOf
  · obtain ⟨node, hnode, hsrc⟩ := List.mem_map.mp hin
    rcases List.mem_append.mp hnode with h1 | h1
    · obtain ⟨k, hk, hget⟩ := List.getElem_of_mem h1
      have hk' : sta[k]? = some node := List.getElem?_eq_some.mpr ⟨hk, hget⟩
      have := hsta k node hk' hsrc.symm
      rw [this.1, this.2.1]
      simp
    · rw [List.mem_singleton] at h1
      subst h1
      have := hapc hsrc.symm
      rw [this.1, this.2]
      simp
  · have := hnone hin
    rw [this.1, this.2]
    simp

/-- C2, witness: one station, a flow from its address. -/
theorem flow_attribution_cases_witness :
    csvFlow (sampleAddr 5) sampleAddr 10 (buildNodeIdMap [10] 5)
        ⟨1, 110, 105, 10, 7, 131072, 3 / 2⟩
      = [csvRow 1 ⟨1, 110, 105, 10, 7, 131072, 3 / 2⟩ 10] :=
  ((flow_attribution_cases [10] 5 sampleAddr 10 ⟨1, 110, 105, 10, 7, 131072, 3 / 2⟩
    (by decide) (by decide) (by decide) (by decide)).1 0 10 (by decide) (by decide)).1

/-- C2, counterexample. One station and the AP with distinct addresses: a flow to the AP
from an unregistered address leaves no block and no row, and a flow to the AP from the
address of the AP is attributed to the AP, with client id `N + 1 = 2`. -/
theorem flow_not_attributed_to_station :
    ([10] ++ [5]).Nodup ∧ (([10] ++ [5]).map sampleAddr).Nodup ∧
    csvFlow (sampleAddr 5) sampleAddr 10 (buildNodeIdMap [10] 5)
      ⟨1, 999, 105, 10, 7, 131072, 3 / 2⟩ = [] ∧
    consoleFlow (sampleAddr 5) sampleAddr 10 (buildNodeIdMap [10] 5)
      ⟨1, 999, 105, 10, 7, 131072, 3 / 2⟩ = [] ∧
    (csvFlow (sampleAddr 5) sampleAddr 10 (buildNodeIdMap [10] 5)
      ⟨2, 105, 105, 10, 7, 131072, 3 / 2⟩).map CsvRow.clientId = [2] ∧
    (consoleFlow (sampleAddr 5) sampleAddr 10 (buildNodeIdMap [10] 5)
      ⟨2, 105, 105, 10, 7, 131072, 3 / 2⟩).map ConsoleBlock.clientId = [2] := by
  decide

/-! ## The reports -/

/-- C7. Two stations and the AP with distinct addresses, `simulationTime = 10`, a flow to
the AP from station 1 with 100 of 100 packets delivered and a finite `delaySum`, and a flow
to the AP from station 2 with 0 of 50 delivered: in either flow order both reports hold
exactly two entries, client 1 with loss `0` and a finite delay, client 2 with loss `100`
and delay `+infinity`. -/
theorem end_to_end_two_stations (s1 s2 ap : ℕ) (addrOf : ℕ → ℕ) (f1 f2 : FlowRecord)
    (hnd : ([s1, s2] ++ [ap]).Nodup) (hadr : (([s1, s2] ++ [ap]).map addrOf).Nodup)
    (h1s : f1.sourceAddress = addrOf s1) (h1d : f1.destinationAddress = addrOf ap)
    (h1tx : f1.txPackets = 100) (h1rx : f1.rxPackets = 100) (h1ds : IsDouble f1.delaySum)
    (h2s : f2.sourceAddress = addrOf s2) (h2d : f2.destinationAddress = addrOf ap)
    (h2tx : f2.txPackets = 50) (h2rx : f2.rxPackets = 0) :
    (csvReport (addrOf ap) addrOf 10 (buildNodeIdMap [s1, s2] ap) [f1, f2]
        = [csvRow 1 f1 10, csvRow 2 f2 10] ∧
      csvReport (addrOf ap) addrOf 10 (buildNodeIdMap [s1, s2] ap) [f2, f1]
        = [csvRow 2 f2 10, csvRow 1 f1 10] ∧
      consoleReport (addrOf ap) addrOf 10 (buildNodeIdMap [s1, s2] ap) [f1, f2]
        = [consoleBlock 1 f1 10, consoleBlock 2 f2 10] ∧
      consoleReport (addrOf ap) addrOf 10 (buildNodeIdMap [s1, s2] ap) [f2, f1]
        = [consoleBlock 2 f2 10, consoleBlock 1 f1 10]) ∧
    ((csvRow 1 f1 10).clientId = 1 ∧ (csvRow 1 f1 10).loss = Dbl.fin 0 ∧
      (∃ d : ℚ, (csvRow 1 f1 10).delay = Dbl.fin d) ∧
      (csvRow 2 f2 10).clientId = 2 ∧ (csvRow 2 f2 10).loss = Dbl.fin 100 ∧
      (csvRow 2 f2 10).delay = Dbl.pinf) ∧
    ((consoleBlock 1 f1 10).clientId = 1 ∧ (consoleBlock 1 f1 10).loss = Dbl.fin 0 ∧
      (∃ d : ℚ, (consoleBlock 1 f1 10).delay = Dbl.fin d) ∧
      (consoleBlock 2 f2 10).clientId = 2 ∧ (consoleBlock 2 f2 10).loss = Dbl.fin 100 ∧
      (consoleBlock 2 f2 10).delay = Dbl.pinf) := by
  have hlen : [s1, s2].length < 4294967296 := by simp
  have e1 := scans_registered addrOf 10 f1 [s1, s2] ap s1 1 hnd hadr
    (station_entry_mem [s1, s2] ap 0 s1 hlen rfl) h1s.symm
  have e2 := scans_registered addrOf 10 f2 [s1, s2] ap s2 2 hnd hadr
    (station_entry_mem [s1, s2] ap 1 s2 hlen rfl) h2s.symm
  have hloss1 : Dbl.div (Dbl.mul (Dbl.ofNat (u32sub 100 100)) (Dbl.fin 100)) (Dbl.ofNat 100)
      = Dbl.fin 0 := by decide!
  have hloss2 : Dbl.div (Dbl.mul (Dbl.ofNat (u32sub 50 0)) (Dbl.fin 100)) (Dbl.ofNat 50)
      = Dbl.fin 100 := by decide!
  have hdelay1 : Dbl.div (Dbl.fin f1.delaySum) (Dbl.ofNat 100)
      = Dbl.fin (fl (f1.delaySum / 100)) := by
    have hb := h1ds.abs_bound
    rw [Dbl.ofNat_eq 100 (by norm_num), Dbl.div_fin_fin _ _ (by norm_num)]
    push_cast
    apply Dbl.round_eq_fin
    rw [abs_div, abs_of_pos (by norm_num : (0 : ℚ) < 100), div_le_iff₀ (by norm_num)]
    generalize (2 : ℚ) ^ 1023 = X at hb ⊢
    have : 0 < X := by
      have := abs_nonneg f1.delaySum
      linarith
    linarith
  refine ⟨⟨?_, ?_, ?_, ?_⟩,
    ⟨rfl, ?_, ⟨fl (f1.delaySum / 100), ?_⟩, rfl, ?_, ?_⟩,
    ⟨rfl, ?_, ⟨fl (f1.delaySum / 100), ?_⟩, rfl, ?_, ?_⟩⟩
  · simp only [csvReport, csvFlow, if_pos h1d, if_pos h2d, e1.1, e2.1]
    rfl
  · simp only [csvReport, csvFlow, if_pos h1d, if_pos h2d, e1.1, e2.1]
    rfl
  · simp only [consoleReport, consoleFlow, if_pos h1d, if_pos h2d, e1.2, e2.2]
    rfl
  · simp only [consoleReport, consoleFlow, if_pos h1d, if_pos h2d, e1.2, e2.2]
    rfl
  · show csvLoss f1 = _
    unfold csvLoss
    rw [h1tx, h1rx, if_pos (by decide), hloss1]
  · show csvDelay f1 = _
    unfold csvDelay
    rw [h1rx, if_pos (by decide), hdelay1]
  · show csvLoss f2 = _
    unfold csvLoss
    rw [h2tx, h2rx, if_pos (by decide), hloss2]
  · show csvDelay f2 = _
    unfold csvDelay
    rw [h2rx, if_neg (by decide)]
  · show consoleLoss f1 = _
    unfold consoleLoss
    rw [h1tx, h1rx, if_pos (by decide), hloss1]
  · show consoleDelay f1 = _
    unfold consoleDelay
    rw [h1rx, if_pos (by decide), hdelay1]
  · show consoleLoss f2 = _
    unfold consoleLoss
    rw [h2tx, h2rx, if_pos (by decide), hloss2]
  · show consoleDelay f2 = _
    unfold consoleDelay
    rw [h2rx, if_neg (by decide)]

/-- C7, witness: stations `10` and `20`, the AP `5`, addresses `110`, `120` and `105`. -/
theorem end_to_end_two_stations_witness :
    csvReport (sampleAddr 5) sampleAddr 10 (buildNodeIdMap [10, 20] 5) [sampleFlow1, sampleFlow2]
        = [csvRow 1 sampleFlow1 10, csvRow 2 sampleFlow2 10] ∧
    consoleReport (sampleAddr 5) sampleAddr 10 (buildNodeIdMap [10, 20] 5)
        [sampleFlow1, sampleFlow2]
        = [consoleBlock 1 sampleFlow1 10, consoleBlock 2 sampleFlow2 10] :=
  have h := end_to_end_two_stations 10 20 5 sampleAddr sampleFlow1 sampleFlow2
    (by decide) (by decide) (by decide) (by decide) (by decide) (by decide) (by decide!)
    (by decide) (by decide) (by decide) (by decide)
  ⟨h.1.1, h.1.2.2.1⟩

end WirelessNetworkExample
